import Mathlib

/-!
Verification of the read-only object-file inspection core
(src/read/mod.rs) against its natural-language specification.

The Rust source is shallowly embedded: machine integers (u64, usize on a
64-bit target) are natural numbers with explicit reduction modulo 2 ^ 64
wherever the Rust code can wrap, byte slices are lists of naturals, and
fallible Rust code returns Option / Except.  A distinguished result
constructor records the places where the Rust code would panic.
-/

namespace ObjectRead

/-- The u64 / usize modulus of the 64-bit target. -/
def U64 : Nat := 2 ^ 64

/-! ## Symbols and the symbol map (src/read/mod.rs lines 250-301, 705-801) -/

/-- The kind of a symbol (enum SymbolKind). -/
inductive SymbolKind where
  | Unknown
  | Null
  | Text
  | Data
  | Section
  | File
  | Common
  | Tls
deriving DecidableEq, Repr

/-- A symbol table entry (struct Symbol).  Addresses and sizes are u64
values, represented as naturals below 2 ^ 64. -/
structure Symbol where
  kind : SymbolKind
  section_index : Option Nat
  undefined : Bool
  global : Bool
  name : Option String
  address : Nat
  size : Nat
deriving DecidableEq, Repr

instance : Inhabited Symbol :=
  ⟨⟨SymbolKind.Unknown, none, false, false, none, 0, 0⟩⟩

/-- Symbol::is_undefined. -/
def Symbol.is_undefined (s : Symbol) : Bool := s.undefined

/-- Symbol::is_global. -/
def Symbol.is_global (s : Symbol) : Bool := s.global

/-- Symbol::is_local, defined in the source as the negation of is_global. -/
def Symbol.is_local (s : Symbol) : Bool := !s.is_global

/-- A map from addresses to symbols (struct SymbolMap). -/
structure SymbolMap where
  symbols : List Symbol
deriving DecidableEq, Repr

/-- SymbolMap::filter (lines 787-800): true for symbols that should be
included in the map. -/
def SymbolMap.filter (symbol : Symbol) : Bool :=
  match symbol.kind with
  | SymbolKind.Unknown | SymbolKind.Text | SymbolKind.Data =>
    !symbol.is_undefined && decide (symbol.size > 0)
  | SymbolKind.Null | SymbolKind.Section | SymbolKind.File
  | SymbolKind.Common | SymbolKind.Tls => false

/-- The comparator closure inside SymbolMap::get (lines 769-777).
The Rust addition symbol.address + symbol.size is a u64 addition, hence
the reduction modulo 2 ^ 64. -/
def symCmp (address : Nat) (symbol : Symbol) : Ordering :=
  if address < symbol.address then Ordering.gt
  else if address < (symbol.address + symbol.size) % U64 then Ordering.eq
  else Ordering.lt

/-- The loop of core Rust slice::binary_search_by (the base/size
formulation used by the standard library of the source's era):
while size > 1, probe base + size / 2, move base right unless the
comparator answered Greater, and shrink size by half.  The comparator is
given the probed index.  Structural recursion on a fuel argument; the
fuel only needs to dominate the iteration count (size strictly decreases
each round), and callers pass the initial size as fuel. -/
def bsLoopAux (f : Nat → Ordering) (fuel base size : Nat) : Nat :=
  match fuel with
  | 0 => base
  | fuel' + 1 =>
    if 1 < size then
      bsLoopAux f fuel'
        (if f (base + size / 2) = Ordering.gt then base else base + size / 2)
        (size - size / 2)
    else base

/-- The binary search loop starting from a window. -/
def bsLoop (f : Nat → Ordering) (base size : Nat) : Nat :=
  bsLoopAux f size base size

/-- Rust slice::binary_search_by over a slice of the given length, with
the comparator applied to indices.  Returns Ok(index) when the final
probe compared Equal, otherwise Err(insertion point). -/
def binarySearchBy (f : Nat → Ordering) (len : Nat) : Except Nat Nat :=
  if len = 0 then Except.error 0
  else if f (bsLoop f 0 len) = Ordering.eq then Except.ok (bsLoop f 0 len)
  else if f (bsLoop f 0 len) = Ordering.lt then Except.error (bsLoop f 0 len + 1)
  else Except.error (bsLoop f 0 len)

/-- SymbolMap::get (lines 765-780): binary search with the interval
comparator, then look the found index up in the symbol list. -/
def SymbolMap.get (m : SymbolMap) (address : Nat) : Option Symbol :=
  match binarySearchBy (fun i => symCmp address (m.symbols.getD i default))
      m.symbols.length with
  | Except.ok i => m.symbols[i]?
  | Except.error _ => none

/-- Stable insertion of a symbol into an address-sorted symbol list. -/
def insertByAddress (s : Symbol) : List Symbol → List Symbol
  | [] => [s]
  | t :: ts =>
    if s.address ≤ t.address then s :: t :: ts else t :: insertByAddress s ts

/-- Modelled from the spec: the construction of a SymbolMap performed by
the format backends' symbol_map implementations (src/read/elf.rs and
friends, which are not part of the provided source).  Spec section 4.6:
collect the symbols, retain those satisfying SymbolMap::filter, and sort
them by ascending address with ties broken by insertion order. -/
def SymbolMap.make (syms : List Symbol) : SymbolMap :=
  ⟨(syms.filter SymbolMap.filter).foldr insertByAddress []⟩

/-! ## Relocations (src/read/mod.rs lines 293-330, 811-847) -/

/-- The kind of a relocation (enum RelocationKind). -/
inductive RelocationKind where
  | Absolute
  | AbsoluteSigned
  | Relative
  | GotOffset
  | GotRelative
  | PltRelative
  | Other (value : Nat)
deriving DecidableEq, Repr

/-- A relocation entry (struct Relocation).  size is a u8 bit width,
symbol a symbol table index, addend an i64. -/
structure Relocation where
  kind : RelocationKind
  size : Nat
  symbol : Nat
  addend : Int
  implicit_addend : Bool
deriving DecidableEq, Repr

/-- Relocation::set_addend (lines 838-840), the only mutating method on
Relocation in the source. -/
def Relocation.set_addend (r : Relocation) (addend : Int) : Relocation :=
  { r with addend := addend }

/-- Relocation::has_implicit_addend. -/
def Relocation.has_implicit_addend (r : Relocation) : Bool :=
  r.implicit_addend

/-! ## Bounded slicing (src/read/mod.rs lines 849-863) -/

/-- Result of running data_range under release-mode Rust semantics: the
function either returns normally with an optional sub-slice, or panics. -/
inductive DrResult where
  | panic
  | ok : Option (List Nat) → DrResult
deriving DecidableEq, Repr

/-- data_range (lines 849-863).  The u64 → usize casts are reductions
modulo 2 ^ 64 (identities for representable inputs on the 64-bit
target); the Rust addition start_offset + size is an unchecked usize
addition, which wraps modulo 2 ^ 64 in release mode, and the slice
expression data[start_offset..end_offset] panics when start_offset
exceeds end_offset.  (In debug mode the overflowing addition itself
panics; both modes panic on the same overflowing inputs reachable
through the end_offset <= data.len() guard.) -/
def data_range (data : List Nat) (data_address range_address size : Nat) :
    DrResult :=
  if range_address ≥ data_address then
    let start_offset := (range_address - data_address) % U64
    let end_offset := (start_offset + size % U64) % U64
    if end_offset ≤ data.length then
      if start_offset ≤ end_offset then
        DrResult.ok (some ((data.drop start_offset).take (end_offset - start_offset)))
      else DrResult.panic
    else DrResult.ok none
  else DrResult.ok none

/-! ## File parsing and format dispatch (src/read/mod.rs lines 42-76, 419-486)

The per-format backends (ElfFile, MachOFile, PeFile, WasmFile in
src/read/elf.rs, macho.rs, pe.rs, wasm.rs) and the goblin magic sniffer
are external to the provided source; the dispatcher is modelled as a
function of the backend parsers, with each parsed backend file carrying
the one capability the dispatcher interrogates (is_64). -/

/-- A parsed ELF backend file, reduced to the capability the dispatcher
uses (is_64). -/
structure ElfFile where
  is64 : Bool
deriving DecidableEq, Repr

/-- A parsed Mach-O backend file, reduced to is_64. -/
structure MachOFile where
  is64 : Bool
deriving DecidableEq, Repr

/-- A parsed PE backend file, reduced to is_64. -/
structure PeFile where
  is64 : Bool
deriving DecidableEq, Repr

/-- A parsed Wasm backend file; the dispatcher never interrogates it. -/
structure WasmFile where
  unit : Unit
deriving DecidableEq, Repr

/-- enum FileInternal: the tagged union of backends. -/
inductive FileInternal where
  | elf : ElfFile → FileInternal
  | macho : MachOFile → FileInternal
  | pe : PeFile → FileInternal
  | wasm : WasmFile → FileInternal
deriving DecidableEq, Repr

/-- struct File: wraps the tagged union. -/
structure File where
  inner : FileInternal
deriving DecidableEq, Repr

/-- enum Format: the object file format. -/
inductive Format where
  | Elf32
  | Elf64
  | MachO32
  | MachO64
  | Pe32
  | Pe64
  | Wasm
deriving DecidableEq, Repr

/-- The classification returned by the magic sniffer. -/
inductive Hint where
  | elf
  | mach
  | pe
  | unknown
deriving DecidableEq, Repr

/-- The ELF magic bytes 0x7F 'E' 'L' 'F'. -/
def elfMagic : List Nat := [0x7F, 0x45, 0x4C, 0x46]

/-- The Mach-O magic byte sequences (thin 32/64 in both byte orders and
the FAT variants), from spec sections 4.1 and 6. -/
def machMagics : List (List Nat) :=
  [[0xFE, 0xED, 0xFA, 0xCE], [0xFE, 0xED, 0xFA, 0xCF],
   [0xCE, 0xFA, 0xED, 0xFE], [0xCF, 0xFA, 0xED, 0xFE],
   [0xCA, 0xFE, 0xBA, 0xBE], [0xCA, 0xFE, 0xBA, 0xBF]]

/-- The Wasm magic bytes 0x00 'a' 's' 'm'. -/
def wasmMagic : List Nat := [0x00, 0x61, 0x73, 0x6D]

/-- Modelled from the spec: goblin::peek_bytes, the external magic
sniffer applied to the first 16 bytes (spec sections 4.1 and 6): ELF
magic, then the Mach-O magics, then 'M' 'Z' for PE (the PE header
pointer at offset 0x3C lies beyond the sniffed 16 bytes and is
validated by the backend); anything else is unknown.  With 16 bytes in
hand the sniffer cannot fail, so it is total here. -/
def peekBytes (bytes : List Nat) : Hint :=
  if bytes.take 4 = elfMagic then Hint.elf
  else if bytes.take 4 ∈ machMagics then Hint.mach
  else if bytes.take 2 = [0x4D, 0x5A] then Hint.pe
  else Hint.unknown

/-- The backend parse functions the dispatcher is parameterized over
(spec section 4.7: every backend implements parse(bytes) → Self |
Error). -/
structure Backends where
  elfParse : List Nat → Except String ElfFile
  machOParse : List Nat → Except String MachOFile
  peParse : List Nat → Except String PeFile
  wasmParse : List Nat → Except String WasmFile

/-- parse_wasm (lines 419-434): when the wasm feature is enabled and the
first four bytes are the Wasm magic, parse with the Wasm backend
(propagating its error); otherwise yield no file. -/
def parse_wasm (B : Backends) (wasmEnabled : Bool) (data : List Nat) :
    Except String (Option File) :=
  if wasmEnabled then
    if data.take 4 = wasmMagic then
      match B.wasmParse data with
      | Except.ok w => Except.ok (some ⟨FileInternal.wasm w⟩)
      | Except.error e => Except.error e
    else Except.ok none
  else Except.ok none

/-- File::parse (lines 438-456): reject inputs shorter than 16 bytes,
try Wasm first, then sniff the first 16 bytes and dispatch to the
matching backend, propagating backend errors. -/
def File.parse (B : Backends) (wasmEnabled : Bool) (data : List Nat) :
    Except String File :=
  if data.length < 16 then Except.error "File too short"
  else
    match parse_wasm B wasmEnabled data with
    | Except.error e => Except.error e
    | Except.ok (some f) => Except.ok f
    | Except.ok none =>
      match peekBytes (data.take 16) with
      | Hint.elf => (B.elfParse data).map (fun f => ⟨FileInternal.elf f⟩)
      | Hint.mach => (B.machOParse data).map (fun f => ⟨FileInternal.macho f⟩)
      | Hint.pe => (B.peParse data).map (fun f => ⟨FileInternal.pe f⟩)
      | Hint.unknown => Except.error "Unknown file magic"

/-- File::format (lines 458-486): the Format variant of the active
backend, resolving bitness through the backend's is_64. -/
def File.format (f : File) : Format :=
  match f.inner with
  | FileInternal.elf inner => if inner.is64 then Format.Elf64 else Format.Elf32
  | FileInternal.macho inner => if inner.is64 then Format.MachO64 else Format.MachO32
  | FileInternal.pe inner => if inner.is64 then Format.Pe64 else Format.Pe32
  | FileInternal.wasm _ => Format.Wasm

/-! ## Concrete fixtures for witnesses and counterexamples -/

/-- Backends all of whose parsers fail with a backend diagnostic. -/
def constBackends : Backends :=
  ⟨fun _ => Except.error "backend failure",
   fun _ => Except.error "backend failure",
   fun _ => Except.error "backend failure",
   fun _ => Except.error "backend failure"⟩

/-- Backends whose ELF parser succeeds with a 64-bit file. -/
def elfBackends : Backends :=
  ⟨fun _ => Except.ok ⟨true⟩,
   fun _ => Except.error "backend failure",
   fun _ => Except.error "backend failure",
   fun _ => Except.error "backend failure"⟩

/-- Backends whose Wasm parser succeeds. -/
def wasmBackends : Backends :=
  ⟨fun _ => Except.error "backend failure",
   fun _ => Except.error "backend failure",
   fun _ => Except.error "backend failure",
   fun _ => Except.ok ⟨()⟩⟩

/-- Sixteen bytes opening a 64-bit little-endian ELF file. -/
def elfData : List Nat :=
  [0x7F, 0x45, 0x4C, 0x46, 2, 1, 1, 0, 0, 0, 0, 0, 0, 0, 0, 0]

/-- Sixteen bytes opening a Wasm module (magic and version 1). -/
def wasmData : List Nat :=
  [0x00, 0x61, 0x73, 0x6D, 1, 0, 0, 0, 0, 0, 0, 0, 0, 0, 0, 0]

/-- Sixteen zero bytes, matching no recognized magic. -/
def zeroData : List Nat := List.replicate 16 0

/-- Admitted symbols with overlapping address ranges, already sorted by
ascending address: a large symbol covering addresses 0 to 99 followed by
two small symbols nested inside that range. -/
def cexSyms : List Symbol :=
  [⟨SymbolKind.Text, none, false, true, some "big", 0, 100⟩,
   ⟨SymbolKind.Text, none, false, true, some "mid", 10, 1⟩,
   ⟨SymbolKind.Text, none, false, true, some "top", 20, 1⟩]

/-- Two admitted symbols with disjoint address ranges. -/
def wSyms : List Symbol :=
  [⟨SymbolKind.Text, none, false, true, some "lo", 0, 2⟩,
   ⟨SymbolKind.Text, none, false, true, some "hi", 4, 1⟩]

/-! ## Lemmas about the binary search loop -/

/-- The loop result stays inside the window it was started on. -/
lemma bsLoopAux_mem (f : Nat → Ordering) :
    ∀ fuel base size, 0 < size →
      base ≤ bsLoopAux f fuel base size ∧ bsLoopAux f fuel base size < base + size := by
  intro fuel
  induction fuel with
  | zero => intro base size h; simp only [bsLoopAux]; omega
  | succ m ih =>
    intro base size h
    simp only [bsLoopAux]
    split
    · rename_i hs
      have hhalf : 1 ≤ size / 2 ∧ size / 2 < size := by omega
      by_cases hc : f (base + size / 2) = Ordering.gt
      · simp only [if_pos hc]
        have := ih base (size - size / 2) (by omega)
        omega
      · simp only [if_neg hc]
        have := ih (base + size / 2) (size - size / 2) (by omega)
        omega
    · omega

/-- If the comparator is partitioned on the first n indices (no index
left of a non-Less index compares other than Greater) and the starting
window contains an index comparing Equal, the loop lands on an index
comparing Equal. -/
lemma bsLoopAux_finds (f : Nat → Ordering) (n : Nat)
    (hmono : ∀ i j, i < j → j < n → f i ≠ Ordering.lt → f j = Ordering.gt) :
    ∀ fuel base size e, size ≤ fuel → base + size ≤ n → base ≤ e →
      e < base + size → f e = Ordering.eq →
      f (bsLoopAux f fuel base size) = Ordering.eq := by
  intro fuel
  induction fuel with
  | zero => intro base size e h1 _ h3 h4 _; omega
  | succ m ih =>
    intro base size e hfuel hn hbe hes hfe
    simp only [bsLoopAux]
    split
    · rename_i hs
      have hhalf : 1 ≤ size / 2 ∧ 2 * (size / 2) ≤ size := by omega
      by_cases hc : f (base + size / 2) = Ordering.gt
      · simp only [if_pos hc]
        have he2 : e < base + size / 2 := by
          rcases Nat.lt_or_ge e (base + size / 2) with h | h
          · exact h
          · exfalso
            rcases Nat.eq_or_lt_of_le h with h | h
            · rw [h] at hc; rw [hfe] at hc; exact absurd hc (by decide)
            · have := hmono (base + size / 2) e h (by omega) (by rw [hc]; decide)
              rw [hfe] at this; exact absurd this (by decide)
        exact ih base (size - size / 2) e (by omega) (by omega) hbe (by omega) hfe
      · simp only [if_neg hc]
        have he2 : base + size / 2 ≤ e := by
          rcases Nat.lt_or_ge e (base + size / 2) with h | h
          · exact absurd (hmono e (base + size / 2) h (by omega)
              (by rw [hfe]; decide)) hc
          · exact h
        exact ih (base + size / 2) (size - size / 2) e (by omega) (by omega) he2
          (by omega) hfe
    · rename_i hs
      have : e = base := by omega
      rw [← this]; exact hfe

/-- Soundness of binarySearchBy: an Ok index compares Equal and is in
range. -/
lemma binarySearchBy_ok (f : Nat → Ordering) (len i : Nat)
    (h : binarySearchBy f len = Except.ok i) :
    f i = Ordering.eq ∧ i < len := by
  unfold binarySearchBy at h
  split at h
  · exact absurd h (by simp)
  · rename_i hlen
    split at h
    · rename_i heq
      have hmem := bsLoopAux_mem f len 0 len (by omega)
      cases h
      refine ⟨heq, ?_⟩
      simpa [bsLoop] using hmem.2
    · split at h
      · exact absurd h (by simp)
      · exact absurd h (by simp)

/-- Completeness of binarySearchBy on a partitioned comparator: if some
index in range compares Equal, the search returns Ok. -/
lemma binarySearchBy_finds (f : Nat → Ordering) (len k : Nat)
    (hmono : ∀ i j, i < j → j < len → f i ≠ Ordering.lt → f j = Ordering.gt)
    (hk : k < len) (hfk : f k = Ordering.eq) :
    ∃ i, binarySearchBy f len = Except.ok i := by
  have hlen : ¬ len = 0 := by omega
  have heq : f (bsLoop f 0 len) = Ordering.eq :=
    bsLoopAux_finds f len hmono len 0 len k le_rfl (by omega) (Nat.zero_le _)
      (by omega) hfk
  refine ⟨bsLoop f 0 len, ?_⟩
  unfold binarySearchBy
  rw [if_neg hlen]
  simp only [bsLoop] at heq ⊢
  rw [if_pos heq]

/-! ## Lemmas about the interval comparator -/

/-- For a symbol whose u64 range does not wrap, the comparator answers
Equal exactly on the addresses the symbol contains. -/
lemma symCmp_eq_iff (t : Nat) (s : Symbol) (hwrap : s.address + s.size < U64) :
    symCmp t s = Ordering.eq ↔ s.address ≤ t ∧ t < s.address + s.size := by
  unfold symCmp
  rw [Nat.mod_eq_of_lt hwrap]
  split_ifs with h1 h2
  · simp only [false_iff, not_and, not_lt]
    intro h; omega
  · simp only [true_iff]
    omega
  · simp only [false_iff, not_and, not_lt]
    intro h; omega

/-- A non-Less comparator answer bounds the target below the end of the
symbol's (possibly wrapped) range. -/
lemma symCmp_ne_lt (t : Nat) (s : Symbol)
    (h : symCmp t s ≠ Ordering.lt) : t < s.address + s.size := by
  unfold symCmp at h
  split_ifs at h with h1 h2
  · omega
  · have := Nat.mod_le (s.address + s.size) U64
    omega
  · exact absurd rfl h

/-- The comparator answers Greater below the symbol's start address. -/
lemma symCmp_gt_of_lt (t : Nat) (s : Symbol) (h : t < s.address) :
    symCmp t s = Ordering.gt := by
  unfold symCmp
  rw [if_pos h]

/-- Characterization of SymbolMap::get on a map whose symbol list is
sorted by address with pairwise non-overlapping, non-wrapping ranges:
the lookup returns a symbol of the map containing the target address
exactly when some symbol of the map contains it, and returns none
otherwise. -/
lemma symbolMap_get_characterizes (syms : List Symbol) (t : Nat)
    (hchain : syms.Pairwise (fun a b => a.address + a.size ≤ b.address))
    (hwrap : ∀ s ∈ syms, s.address + s.size < U64) :
    match (SymbolMap.mk syms).get t with
    | none => ¬ ∃ s ∈ syms, s.address ≤ t ∧ t < s.address + s.size
    | some r => r ∈ syms ∧ r.address ≤ t ∧ t < r.address + r.size := by
  have hpw := List.pairwise_iff_getElem.mp hchain
  have hgetD : ∀ i, (h : i < syms.length) → syms.getD i default = syms[i] :=
    fun i h => List.getD_eq_getElem syms default h
  have hmono : ∀ i j, i < j → j < syms.length →
      symCmp t (syms.getD i default) ≠ Ordering.lt →
      symCmp t (syms.getD j default) = Ordering.gt := by
    intro i j hij hj hne
    have hi : i < syms.length := lt_trans hij hj
    have h1 := symCmp_ne_lt t (syms.getD i default) hne
    rw [hgetD i hi] at h1
    have h2 := hpw i j hi hj hij
    rw [hgetD j hj]
    exact symCmp_gt_of_lt t _ (by omega)
  have hget : (SymbolMap.mk syms).get t =
      match binarySearchBy (fun i => symCmp t (syms.getD i default))
          syms.length with
      | Except.ok i => syms[i]?
      | Except.error _ => none := rfl
  cases hres : binarySearchBy (fun i => symCmp t (syms.getD i default))
      syms.length with
  | error e =>
    rw [hget, hres]
    rintro ⟨s, hmem, hc1, hc2⟩
    obtain ⟨k, hk, hks⟩ := List.mem_iff_getElem.mp hmem
    have hfk : symCmp t (syms.getD k default) = Ordering.eq := by
      rw [hgetD k hk, hks]
      exact (symCmp_eq_iff t s (hwrap s hmem)).mpr ⟨hc1, hc2⟩
    obtain ⟨i, hi⟩ := binarySearchBy_finds _ syms.length k hmono hk hfk
    rw [hres] at hi
    exact absurd hi (by simp)
  | ok i =>
    obtain ⟨hfi, hilen⟩ := binarySearchBy_ok _ syms.length i hres
    rw [hgetD i hilen] at hfi
    have hmem : syms[i] ∈ syms := List.getElem_mem hilen
    have hcont := (symCmp_eq_iff t syms[i] (hwrap _ hmem)).mp hfi
    have hsome : (SymbolMap.mk syms).get t = some syms[i] := by
      rw [hget, hres]
      exact List.getElem?_eq_getElem hilen
    rw [hsome]
    exact ⟨hmem, hcont⟩

/-! ## Lemmas about the dispatcher -/

/-- A parse_wasm error always originates in the Wasm backend parser. -/
lemma parse_wasm_error (B : Backends) (we : Bool) (data : List Nat) (e : String)
    (h : parse_wasm B we data = Except.error e) :
    B.wasmParse data = Except.error e := by
  unfold parse_wasm at h
  split_ifs at h
  · cases hw : B.wasmParse data with
    | ok w => rw [hw] at h; exact absurd h (by simp)
    | error e2 => rw [hw] at h; injection h with h2; rw [h2]

/-- With the wasm feature enabled and the Wasm magic present, parse_wasm
is exactly the Wasm backend parse. -/
lemma parse_wasm_magic (B : Backends) (data : List Nat)
    (hmagic : data.take 4 = wasmMagic) :
    parse_wasm B true data =
      match B.wasmParse data with
      | Except.ok w => Except.ok (some ⟨FileInternal.wasm w⟩)
      | Except.error e => Except.error e := by
  unfold parse_wasm
  rw [if_pos rfl, if_pos hmagic]

/-- With at least 16 bytes of input starting with the Wasm magic,
File::parse is decided entirely by the Wasm backend parse. -/
lemma parse_with_wasm_magic (B : Backends) (data : List Nat)
    (hlen : 16 ≤ data.length) (hmagic : data.take 4 = wasmMagic) :
    File.parse B true data =
      match B.wasmParse data with
      | Except.ok w => Except.ok ⟨FileInternal.wasm w⟩
      | Except.error e => Except.error e := by
  unfold File.parse
  rw [if_neg (by omega), parse_wasm_magic B data hmagic]
  cases B.wasmParse data <;> rfl

/-! ## Claims -/

/-- C1 (amended): for every SymbolMap whose symbol list is sorted by
ascending address with pairwise non-overlapping ranges (as symbol_map()
produces whenever the admitted symbols' ranges do not overlap) and
whose ranges do not wrap the 64-bit address space, get(t) returns
Some(sym) if and only if some symbol of the map satisfies
sym.address <= t < sym.address + sym.size, and any returned symbol is
such a containing member of the map.  Without the non-overlap proviso
only the forward direction holds: the binary search may miss a
containing symbol (see the counterexample). -/
theorem claim_C1_symbol_map_get (syms : List Symbol) (t : Nat)
    (hchain : syms.Pairwise (fun a b => a.address + a.size ≤ b.address))
    (hwrap : ∀ s ∈ syms, s.address + s.size < U64) :
    ((∃ s ∈ syms, s.address ≤ t ∧ t < s.address + s.size) ↔
      ∃ r, (SymbolMap.mk syms).get t = some r) ∧
    (∀ r, (SymbolMap.mk syms).get t = some r →
      r ∈ syms ∧ r.address ≤ t ∧ t < r.address + r.size) := by
  have h := symbolMap_get_characterizes syms t hchain hwrap
  cases hres : (SymbolMap.mk syms).get t with
  | none =>
    rw [hres] at h
    refine ⟨⟨fun hex => absurd hex h, ?_⟩, ?_⟩
    · rintro ⟨r, hr⟩
      exact absurd hr (by simp)
    · intro r hr
      exact absurd hr (by simp)
  | some r =>
    rw [hres] at h
    refine ⟨⟨fun _ => ⟨r, rfl⟩, fun _ => ⟨r, h.1, h.2⟩⟩, ?_⟩
    intro r2 hr2
    injection hr2 with hr3
    rw [← hr3]
    exact h

/-- C1 witness: on a two-symbol map with disjoint ranges the amended
characterization holds, instantiated at target address 1. -/
theorem claim_C1_symbol_map_get_witness :
    ((∃ s ∈ wSyms, s.address ≤ 1 ∧ 1 < s.address + s.size) ↔
      ∃ r, (SymbolMap.mk wSyms).get 1 = some r) ∧
    (∀ r, (SymbolMap.mk wSyms).get 1 = some r →
      r ∈ wSyms ∧ r.address ≤ 1 ∧ 1 < r.address + r.size) :=
  claim_C1_symbol_map_get wSyms 1 (by decide) (by decide)

/-- C1 counterexample: the claim as stated is false.  cexSyms holds
three symbols all admitted by SymbolMap::filter, sorted by ascending
address but with overlapping ranges; the map symbol_map() builds from
them is exactly cexSyms, the first symbol contains address 50, yet
get(50) returns None because the binary search probes only the second
and third symbols, both of which compare Less. -/
theorem claim_C1_symbol_map_get_counterexample :
    (∀ s ∈ cexSyms, SymbolMap.filter s = true) ∧
    (SymbolMap.make cexSyms).symbols = cexSyms ∧
    (∃ s ∈ (SymbolMap.make cexSyms).symbols,
      s.address ≤ 50 ∧ 50 < s.address + s.size) ∧
    (SymbolMap.make cexSyms).get 50 = none := by decide

/-- C2: the claim that data_range returns None and never panics when
the offset-plus-size computation overflows is refuted by running the
embedded code on the overflowing input data = [], data_address = 0,
range_address = 2 ^ 64 - 1, size = 1: start_offset is 2 ^ 64 - 1, the
unchecked usize addition wraps end_offset to 0, the bounds test
0 <= len passes, and the slice data[start_offset..end_offset] with
start_offset > end_offset panics (in debug mode the addition itself
panics). -/
theorem claim_C2_data_range_overflow_panics :
    data_range [] 0 (2 ^ 64 - 1) 1 = DrResult.panic := by decide

/-- C3 counterexample: the claim as stated is false.  At data = [],
data_address = 0, range_address = 2 ^ 64 - 1, size = 1 the claim's
condition range_address - data_address + size <= data.len() fails, so
the claim demands None, but the code panics instead of returning. -/
theorem claim_C3_data_range_counterexample :
    data_range [] 0 (2 ^ 64 - 1) 1 ≠ DrResult.ok none := by decide

/-- C3 (amended): for u64-representable arguments and list length, and
provided the offset computation range_address - data_address + size
does not overflow u64, data_range returns
Some(data[offset .. offset + size]) with offset =
range_address - data_address, a slice of length exactly size, when
range_address >= data_address and offset + size <= data.len(), and
None otherwise.  (At overflowing inputs the code may panic; see the
counterexample.) -/
theorem claim_C3_data_range_spec (data : List Nat) (da ra size : Nat)
    (hda : da < U64) (hra : ra < U64) (hsize : size < U64)
    (hno : da ≤ ra → ra - da + size < U64) :
    (da ≤ ra ∧ ra - da + size ≤ data.length →
      data_range data da ra size =
        DrResult.ok (some ((data.drop (ra - da)).take size)) ∧
      ((data.drop (ra - da)).take size).length = size) ∧
    (¬ (da ≤ ra ∧ ra - da + size ≤ data.length) →
      data_range data da ra size = DrResult.ok none) := by
  have hstart : (ra - da) % U64 = ra - da := Nat.mod_eq_of_lt (by omega)
  have hsz : size % U64 = size := Nat.mod_eq_of_lt hsize
  constructor
  · rintro ⟨h1, h2⟩
    have hend : (ra - da + size) % U64 = ra - da + size :=
      Nat.mod_eq_of_lt (hno h1)
    have hdr : data_range data da ra size =
        DrResult.ok (some ((data.drop (ra - da)).take size)) := by
      unfold data_range
      rw [if_pos (by omega : ra ≥ da)]
      simp only [hstart, hsz, hend]
      rw [if_pos h2, if_pos (by omega : ra - da ≤ ra - da + size),
        Nat.add_sub_cancel_left]
    refine ⟨hdr, ?_⟩
    rw [List.length_take, List.length_drop]
    omega
  · intro hneg
    by_cases h1 : da ≤ ra
    · have h2 : data.length < ra - da + size := by
        rcases Nat.lt_or_ge data.length (ra - da + size) with h | h
        · exact h
        · exact absurd ⟨h1, h⟩ hneg
      have hend : (ra - da + size) % U64 = ra - da + size :=
        Nat.mod_eq_of_lt (hno h1)
      unfold data_range
      rw [if_pos (by omega : ra ≥ da)]
      simp only [hstart, hsz, hend]
      rw [if_neg (by omega)]
    · unfold data_range
      rw [if_neg (by omega : ¬ ra ≥ da)]

/-- C3 witness: a concrete in-bounds call and a concrete out-of-bounds
call of the amended specification at data = [1,2,3,4,5],
data_address = 10. -/
theorem claim_C3_data_range_spec_witness :
    data_range [1, 2, 3, 4, 5] 10 12 2 = DrResult.ok (some [3, 4]) ∧
    data_range [1, 2, 3, 4, 5] 10 12 9 = DrResult.ok none := by
  have h := claim_C3_data_range_spec [1, 2, 3, 4, 5] 10 12 2
    (by decide) (by decide) (by decide) (fun _ => by decide)
  have h2 := claim_C3_data_range_spec [1, 2, 3, 4, 5] 10 12 9
    (by decide) (by decide) (by decide) (fun _ => by decide)
  refine ⟨?_, h2.2 (by decide)⟩
  have h3 := (h.1 (by decide)).1
  rw [h3]
  rfl

/-- C4: an input of at least 16 bytes whose leading bytes match none of
the recognized magics (Wasm, ELF, Mach-O, PE) makes File::parse fail
with one of the dispatcher's defined textual values, "Could not parse
file magic" or "Unknown file magic" (the modelled sniffer is total on
16 bytes, so the second value is the one produced). -/
theorem claim_C4_unknown_magic_error (B : Backends) (we : Bool)
    (data : List Nat) (hlen : 16 ≤ data.length)
    (hw : data.take 4 ≠ wasmMagic)
    (he : data.take 4 ≠ elfMagic)
    (hm : data.take 4 ∉ machMagics)
    (hp : data.take 2 ≠ [0x4D, 0x5A]) :
    File.parse B we data = Except.error "Unknown file magic" ∨
    File.parse B we data = Except.error "Could not parse file magic" := by
  left
  have hwp : parse_wasm B we data = Except.ok none := by
    unfold parse_wasm
    cases we with
    | false => simp
    | true => simp [hw]
  have hpk : peekBytes (data.take 16) = Hint.unknown := by
    unfold peekBytes
    rw [List.take_take]
    norm_num
    rw [if_neg he, if_neg hm, if_neg ?_]
    intro h2
    rw [List.take_take] at h2
    norm_num at h2
    exact hp h2
  have hstep : File.parse B we data =
      match peekBytes (data.take 16) with
      | Hint.elf => (B.elfParse data).map (fun f => ⟨FileInternal.elf f⟩)
      | Hint.mach => (B.machOParse data).map (fun f => ⟨FileInternal.macho f⟩)
      | Hint.pe => (B.peParse data).map (fun f => ⟨FileInternal.pe f⟩)
      | Hint.unknown => Except.error "Unknown file magic" := by
    unfold File.parse
    rw [if_neg (by omega), hwp]
  rw [hstep, hpk]

/-- C4 witness: sixteen zero bytes are rejected with one of the two
dispatcher diagnostics. -/
theorem claim_C4_unknown_magic_error_witness :
    File.parse constBackends true zeroData = Except.error "Unknown file magic" ∨
    File.parse constBackends true zeroData = Except.error "Could not parse file magic" :=
  claim_C4_unknown_magic_error constBackends true zeroData
    (by decide) (by decide) (by decide) (by decide) (by decide)

/-- C5: File::parse returns Err("File too short") exactly on inputs of
fewer than 16 bytes, provided the backend parsers never use that
dispatcher-reserved diagnostic (spec section 7 reserves it for the
dispatcher); and on short inputs the result does not depend on the
backends or on the wasm feature at all, reflecting that the length
check precedes magic sniffing and backend dispatch. -/
theorem claim_C5_file_too_short (B : Backends) (we : Bool) (data : List Nat)
    (hElf : ∀ d e, B.elfParse d = Except.error e → e ≠ "File too short")
    (hMach : ∀ d e, B.machOParse d = Except.error e → e ≠ "File too short")
    (hPe : ∀ d e, B.peParse d = Except.error e → e ≠ "File too short")
    (hWasm : ∀ d e, B.wasmParse d = Except.error e → e ≠ "File too short") :
    (File.parse B we data = Except.error "File too short" ↔ data.length < 16) ∧
    (data.length < 16 → ∀ (B2 : Backends) (we2 : Bool),
      File.parse B2 we2 data = File.parse B we data) := by
  have hshort : ∀ (B2 : Backends) (we2 : Bool), data.length < 16 →
      File.parse B2 we2 data = Except.error "File too short" := by
    intro B2 we2 hlen
    unfold File.parse
    rw [if_pos hlen]
  constructor
  · constructor
    · intro h
      by_contra hlen
      unfold File.parse at h
      rw [if_neg hlen] at h
      cases hpw : parse_wasm B we data with
      | error e =>
        rw [hpw] at h
        injection h with h2
        exact hWasm data e (parse_wasm_error B we data e hpw) h2
      | ok o =>
        cases o with
        | some f => rw [hpw] at h; exact absurd h (by simp)
        | none =>
          rw [hpw] at h
          cases hpk : peekBytes (data.take 16) with
          | elf =>
            rw [hpk] at h
            cases hbp : B.elfParse data with
            | ok f => rw [hbp] at h; exact absurd h (by simp [Except.map])
            | error e =>
              rw [hbp] at h
              simp only [Except.map] at h
              injection h with h2
              exact hElf data e hbp h2
          | mach =>
            rw [hpk] at h
            cases hbp : B.machOParse data with
            | ok f => rw [hbp] at h; exact absurd h (by simp [Except.map])
            | error e =>
              rw [hbp] at h
              simp only [Except.map] at h
              injection h with h2
              exact hMach data e hbp h2
          | pe =>
            rw [hpk] at h
            cases hbp : B.peParse data with
            | ok f => rw [hbp] at h; exact absurd h (by simp [Except.map])
            | error e =>
              rw [hbp] at h
              simp only [Except.map] at h
              injection h with h2
              exact hPe data e hbp h2
          | unknown =>
            rw [hpk] at h
            injection h with h2
            exact absurd h2 (by decide)
    · exact hshort B we
  · intro hlen B2 we2
    rw [hshort B2 we2 hlen, hshort B we hlen]

/-- C5 witness: an 8-byte input is rejected as too short, and the
rejection is independent of the backends. -/
theorem claim_C5_file_too_short_witness :
    File.parse constBackends false (List.replicate 8 0) =
      Except.error "File too short" ∧
    File.parse elfBackends true (List.replicate 8 0) =
      File.parse constBackends false (List.replicate 8 0) := by
  have h := claim_C5_file_too_short constBackends false (List.replicate 8 0)
    (fun d e hd => by
      simp only [constBackends] at hd
      injection hd with h2
      rw [← h2]
      decide)
    (fun d e hd => by
      simp only [constBackends] at hd
      injection hd with h2
      rw [← h2]
      decide)
    (fun d e hd => by
      simp only [constBackends] at hd
      injection hd with h2
      rw [← h2]
      decide)
    (fun d e hd => by
      simp only [constBackends] at hd
      injection hd with h2
      rw [← h2]
      decide)
  exact ⟨h.1.mpr (by decide), h.2 (by decide) elfBackends true⟩

/-- C6: a symbol is admitted by SymbolMap::filter if and only if its
kind is Unknown, Text, or Data, it is not undefined, and its size is
strictly positive; symbols of kind Null, Section, File, Common, or Tls
are always excluded. -/
theorem claim_C6_filter_iff (s : Symbol) :
    (SymbolMap.filter s = true ↔
      ((s.kind = SymbolKind.Unknown ∨ s.kind = SymbolKind.Text ∨
          s.kind = SymbolKind.Data) ∧
        s.undefined = false ∧ 0 < s.size)) ∧
    ((s.kind = SymbolKind.Null ∨ s.kind = SymbolKind.Section ∨
        s.kind = SymbolKind.File ∨ s.kind = SymbolKind.Common ∨
        s.kind = SymbolKind.Tls) →
      SymbolMap.filter s = false) := by
  cases s with
  | mk kind si und glob name addr size =>
    cases kind <;> cases und <;>
      simp [SymbolMap.filter, Symbol.is_undefined, Nat.pos_iff_ne_zero]

/-- C7: a successfully parsed File reports the Format variant matching
its active backend and that backend's bitness: Elf64 exactly when the
ELF backend reports is_64 and Elf32 otherwise, likewise for Mach-O and
PE, and Wasm for the Wasm backend. -/
theorem claim_C7_format_matches (B : Backends) (we : Bool) (data : List Nat)
    (f : File) (_h : File.parse B we data = Except.ok f) :
    (∀ e, f.inner = FileInternal.elf e →
      (f.format = Format.Elf64 ↔ e.is64 = true) ∧
      (f.format = Format.Elf32 ↔ e.is64 = false)) ∧
    (∀ m, f.inner = FileInternal.macho m →
      (f.format = Format.MachO64 ↔ m.is64 = true) ∧
      (f.format = Format.MachO32 ↔ m.is64 = false)) ∧
    (∀ p, f.inner = FileInternal.pe p →
      (f.format = Format.Pe64 ↔ p.is64 = true) ∧
      (f.format = Format.Pe32 ↔ p.is64 = false)) ∧
    (∀ w, f.inner = FileInternal.wasm w → f.format = Format.Wasm) := by
  refine ⟨fun e he => ?_, fun m hm => ?_, fun p hp => ?_, fun w hw => ?_⟩
  · cases hb : e.is64 <;> simp [File.format, he, hb]
  · cases hb : m.is64 <;> simp [File.format, hm, hb]
  · cases hb : p.is64 <;> simp [File.format, hp, hb]
  · simp [File.format, hw]

/-- C7 witness: parsing 16 bytes of 64-bit ELF header against a backend
that reports is_64 yields a File whose format is Elf64. -/
theorem claim_C7_format_matches_witness :
    File.parse elfBackends false elfData = Except.ok ⟨FileInternal.elf ⟨true⟩⟩ ∧
    (⟨FileInternal.elf ⟨true⟩⟩ : File).format = Format.Elf64 := by
  refine ⟨by rfl, ?_⟩
  have h := claim_C7_format_matches elfBackends false elfData
    ⟨FileInternal.elf ⟨true⟩⟩ (by rfl)
  exact (h.1 ⟨true⟩ rfl).1.mpr rfl

/-- C8: on an input of at least 16 bytes starting with the Wasm magic
and with Wasm support enabled, File::parse is decided by
WasmBackend::parse alone: backend success yields a File whose format is
Wasm, backend failure propagates, and the result is unchanged under any
replacement of the other backends. -/
theorem claim_C8_wasm_precedence (B : Backends) (data : List Nat)
    (hlen : 16 ≤ data.length) (hmagic : data.take 4 = wasmMagic) :
    (∀ w, B.wasmParse data = Except.ok w →
      File.parse B true data = Except.ok ⟨FileInternal.wasm w⟩ ∧
      File.format ⟨FileInternal.wasm w⟩ = Format.Wasm) ∧
    (∀ e, B.wasmParse data = Except.error e →
      File.parse B true data = Except.error e) ∧
    (∀ B2 : Backends, B2.wasmParse = B.wasmParse →
      File.parse B2 true data = File.parse B true data) := by
  refine ⟨fun w hw => ⟨?_, rfl⟩, fun e he => ?_, fun B2 hsame => ?_⟩
  · rw [parse_with_wasm_magic B data hlen hmagic, hw]
  · rw [parse_with_wasm_magic B data hlen hmagic, he]
  · rw [parse_with_wasm_magic B data hlen hmagic,
      parse_with_wasm_magic B2 data hlen hmagic, hsame]

/-- C8 witness: a 16-byte Wasm preamble parses through the Wasm backend
into a File of format Wasm. -/
theorem claim_C8_wasm_precedence_witness :
    File.parse wasmBackends true wasmData = Except.ok ⟨FileInternal.wasm ⟨()⟩⟩ ∧
    File.format ⟨FileInternal.wasm ⟨()⟩⟩ = Format.Wasm := by
  have h := claim_C8_wasm_precedence wasmBackends wasmData (by decide) (by decide)
  exact h.1 ⟨()⟩ (by rfl)

/-- C9: Relocation::set_addend changes only the addend field: afterwards
addend() is the given value while kind(), size(), symbol() and
has_implicit_addend() are unchanged.  (set_addend is the sole mutating
method on Relocation in the source, as reflected by the embedding.) -/
theorem claim_C9_set_addend_frame (r : Relocation) (x : Int) :
    (r.set_addend x).addend = x ∧
    (r.set_addend x).kind = r.kind ∧
    (r.set_addend x).size = r.size ∧
    (r.set_addend x).symbol = r.symbol ∧
    (r.set_addend x).has_implicit_addend = r.has_implicit_addend := by
  simp [Relocation.set_addend, Relocation.has_implicit_addend]

/-- C10: Symbol::is_local returns exactly the negation of
Symbol::is_global, so every symbol is classified as local or global and
never both. -/
theorem claim_C10_local_not_global (s : Symbol) :
    s.is_local = !s.is_global ∧
    (s.is_local = true ∨ s.is_global = true) ∧
    ¬ (s.is_local = true ∧ s.is_global = true) := by
  cases hg : s.is_global <;> simp [Symbol.is_local, hg]

/-- C6 witness: the admission test evaluated at a concrete defined Text
symbol of positive size. -/
theorem claim_C6_filter_iff_witness :
    (SymbolMap.filter ⟨SymbolKind.Text, none, false, true, some "f", 0, 4⟩ = true ↔
      (((⟨SymbolKind.Text, none, false, true, some "f", 0, 4⟩ : Symbol).kind = SymbolKind.Unknown ∨
          (⟨SymbolKind.Text, none, false, true, some "f", 0, 4⟩ : Symbol).kind = SymbolKind.Text ∨
          (⟨SymbolKind.Text, none, false, true, some "f", 0, 4⟩ : Symbol).kind = SymbolKind.Data) ∧
        (⟨SymbolKind.Text, none, false, true, some "f", 0, 4⟩ : Symbol).undefined = false ∧
        0 < (⟨SymbolKind.Text, none, false, true, some "f", 0, 4⟩ : Symbol).size)) ∧
    (((⟨SymbolKind.Text, none, false, true, some "f", 0, 4⟩ : Symbol).kind = SymbolKind.Null ∨
        (⟨SymbolKind.Text, none, false, true, some "f", 0, 4⟩ : Symbol).kind = SymbolKind.Section ∨
        (⟨SymbolKind.Text, none, false, true, some "f", 0, 4⟩ : Symbol).kind = SymbolKind.File ∨
        (⟨SymbolKind.Text, none, false, true, some "f", 0, 4⟩ : Symbol).kind = SymbolKind.Common ∨
        (⟨SymbolKind.Text, none, false, true, some "f", 0, 4⟩ : Symbol).kind = SymbolKind.Tls) →
      SymbolMap.filter ⟨SymbolKind.Text, none, false, true, some "f", 0, 4⟩ = false) :=
  claim_C6_filter_iff ⟨SymbolKind.Text, none, false, true, some "f", 0, 4⟩

/-- C9 witness: the frame property evaluated at a concrete relocation
and addend. -/
theorem claim_C9_set_addend_frame_witness :
    ((⟨RelocationKind.Relative, 32, 7, 9, true⟩ : Relocation).set_addend (-5)).addend = -5 ∧
    ((⟨RelocationKind.Relative, 32, 7, 9, true⟩ : Relocation).set_addend (-5)).kind =
      (⟨RelocationKind.Relative, 32, 7, 9, true⟩ : Relocation).kind ∧
    ((⟨RelocationKind.Relative, 32, 7, 9, true⟩ : Relocation).set_addend (-5)).size =
      (⟨RelocationKind.Relative, 32, 7, 9, true⟩ : Relocation).size ∧
    ((⟨RelocationKind.Relative, 32, 7, 9, true⟩ : Relocation).set_addend (-5)).symbol =
      (⟨RelocationKind.Relative, 32, 7, 9, true⟩ : Relocation).symbol ∧
    ((⟨RelocationKind.Relative, 32, 7, 9, true⟩ : Relocation).set_addend (-5)).has_implicit_addend =
      (⟨RelocationKind.Relative, 32, 7, 9, true⟩ : Relocation).has_implicit_addend :=
  claim_C9_set_addend_frame ⟨RelocationKind.Relative, 32, 7, 9, true⟩ (-5)

/-- C10 witness: the local/global dichotomy evaluated at a concrete
global symbol. -/
theorem claim_C10_local_not_global_witness :
    (⟨SymbolKind.Data, none, false, true, some "g", 8, 2⟩ : Symbol).is_local =
      !(⟨SymbolKind.Data, none, false, true, some "g", 8, 2⟩ : Symbol).is_global ∧
    ((⟨SymbolKind.Data, none, false, true, some "g", 8, 2⟩ : Symbol).is_local = true ∨
      (⟨SymbolKind.Data, none, false, true, some "g", 8, 2⟩ : Symbol).is_global = true) ∧
    ¬ ((⟨SymbolKind.Data, none, false, true, some "g", 8, 2⟩ : Symbol).is_local = true ∧
      (⟨SymbolKind.Data, none, false, true, some "g", 8, 2⟩ : Symbol).is_global = true) :=
  claim_C10_local_not_global ⟨SymbolKind.Data, none, false, true, some "g", 8, 2⟩

end ObjectRead
